import Mathlib

/-!
Verification of the manifest-conversion logic of `zed-vscode-icons-theme`
(`src/build.ts`).  The build script downloads the vscode-icons package,
extracts its icon manifest, and converts it to the Zed icon-theme format.
The pure conversion core (`normalizeIconPath`, `convertNamedDirectoryIcons`,
`processLanguageIds`, `convertManifest`) is embedded below.  JavaScript
objects are modelled as association lists over `String` keys (JSON objects
have unique keys; theorems that need uniqueness take a `Nodup` hypothesis),
and JavaScript string/object truthiness is modelled explicitly.
-/

set_option linter.unusedVariables false

namespace ZedVSCodeIcons

/-- JavaScript object modelled as an association list (insertion-ordered). -/
abbrev Obj (α : Type) := List (String × α)

/-- Property read `o[k]`: the value at the first matching key, if any. -/
def objGet {α : Type} (o : Obj α) (k : String) : Option α :=
  match o with
  | [] => none
  | (k', v) :: rest => if k = k' then some v else objGet rest k

/-- Property write `o[k] = v`: overwrite in place, or append a new key. -/
def objInsert {α : Type} (o : Obj α) (k : String) (v : α) : Obj α :=
  match o with
  | [] => [(k, v)]
  | (k', v') :: rest =>
    if k = k' then (k, v) :: rest else (k', v') :: objInsert rest k v

/-- `Set.add`: insert a string into an insertion-ordered set. -/
def setAdd (s : List String) (x : String) : List String :=
  if x ∈ s then s else s ++ [x]

/-- JavaScript truthiness of a `string | null | undefined` value:
truthy iff present and non-empty. -/
def jsTruthy (s : Option String) : Bool :=
  match s with
  | none => false
  | some v => v ≠ ""

/-- JavaScript `a || b || null` on `string | null | undefined` values. -/
def jsOrStr (a b : Option String) : Option String :=
  if jsTruthy a then a else if jsTruthy b then b else none

/-- `interface IconDefinition { iconPath: string }` (src/build.ts:20). -/
structure IconDefinition where
  iconPath : String
deriving DecidableEq, Repr

/-- The optional `light` block of a VSCode icons manifest (src/build.ts:36).
Fields not read by the converter (`file`, `rootFolder`, `rootFolderExpanded`)
are omitted. -/
structure VSCodeLightBlock where
  folder : Option String
  folderExpanded : Option String
  folderNames : Option (Obj String)
  folderNamesExpanded : Option (Obj String)
  fileExtensions : Option (Obj String)
  fileNames : Option (Obj String)
  languageIds : Option (Obj String)
deriving DecidableEq, Repr

/-- `interface VSCodeIconsManifest` (src/build.ts:24).  Fields not read by
the converter (`file`, `rootFolder`, `rootFolderExpanded`) are omitted. -/
structure VSCodeIconsManifest where
  iconDefinitions : Obj IconDefinition
  folder : String
  folderExpanded : String
  folderNames : Obj String
  folderNamesExpanded : Obj String
  fileExtensions : Obj String
  fileNames : Obj String
  languageIds : Option (Obj String)
  light : Option VSCodeLightBlock
deriving DecidableEq, Repr

/-- Appearance tag of a Zed icon-theme variant. -/
inductive Appearance where
  | dark
  | light
deriving DecidableEq, Repr

/-- `interface ZedNamedDirectoryIcon` (src/build.ts:61). -/
structure ZedNamedDirectoryIcon where
  collapsed : Option String
  expanded : Option String
deriving DecidableEq, Repr

/-- The `{ path: string }` record stored in `file_icons` (src/build.ts:58). -/
structure ZedPathIcon where
  path : String
deriving DecidableEq, Repr

/-- `interface ZedIconThemeVariant` (src/build.ts:51). -/
structure ZedIconThemeVariant where
  name : String
  appearance : Appearance
  directory_icons : Option ZedNamedDirectoryIcon
  named_directory_icons : Option (Obj ZedNamedDirectoryIcon)
  file_stems : Obj String
  file_suffixes : Obj String
  file_icons : Obj ZedPathIcon
deriving DecidableEq, Repr

/-- `interface ZedIconTheme` (src/build.ts:71); `schema` models `$schema`. -/
structure ZedIconTheme where
  schema : String
  name : String
  author : String
  themes : List ZedIconThemeVariant
deriving DecidableEq, Repr

/-- The substring of `s` after the last occurrence of `'/'`, i.e.
`s.substring(s.lastIndexOf('/') + 1)` from src/build.ts:368: the maximal
slash-free suffix of `s`. -/
def lastSegment (s : String) : String :=
  ((s.data.reverse.takeWhile (fun c => c ≠ '/')).reverse).asString

/-- `normalizeIconPath` (src/build.ts:367-370): keep only the file name of
the icon path and re-root it under `./icons/`; `null` for an empty name. -/
def normalizeIconPath (definition : IconDefinition) : Option String :=
  let iconFileName := lastSegment definition.iconPath
  if iconFileName.length > 0 then some ("./icons/" ++ iconFileName) else none

/-- Loop body of `convertNamedDirectoryIcons` (src/build.ts:383-398): one
`folderNames` entry `(directoryName, iconKey)`.  The `!expandedIconKey`
check is JS truthiness, so an empty-string expanded key is skipped. -/
def cndiStep (folderNamesExpanded : Obj String) (iconDefinitions : Obj IconDefinition)
    (acc : Obj ZedNamedDirectoryIcon) (e : String × String) : Obj ZedNamedDirectoryIcon :=
  match objGet iconDefinitions e.2 with
  | none => acc
  | some collapsedIconDef =>
    match objGet folderNamesExpanded e.1 with
    | none => acc
    | some expandedIconKey =>
      if expandedIconKey = "" then acc
      else
        match objGet iconDefinitions expandedIconKey with
        | none => acc
        | some expandedIconDef =>
          objInsert acc e.1
            { collapsed := normalizeIconPath collapsedIconDef
              expanded := normalizeIconPath expandedIconDef }

/-- `convertNamedDirectoryIcons` (src/build.ts:375-402). -/
def convertNamedDirectoryIcons (folderNames folderNamesExpanded : Obj String)
    (iconDefinitions : Obj IconDefinition) : Obj ZedNamedDirectoryIcon :=
  folderNames.foldl (cndiStep folderNamesExpanded iconDefinitions) []

/-- The `file_stems` / `file_suffixes` side of the forEach loops at
src/build.ts:224-235: copy every entry into a fresh object. -/
def objFromEntries {α : Type} (entries : List (String × α)) : List (String × α) :=
  entries.foldl (fun o e => objInsert o e.1 e.2) []

/-- The `fileIconIdSet.add(iconId)` side of the forEach loops at
src/build.ts:224-235: collect referenced icon identifiers. -/
def collectIds (entries : Obj String) (s : List String) : List String :=
  entries.foldl (fun acc e => setAdd acc e.2) s

/-- Loop body of the icon-definitions loop (src/build.ts:239-248): one
`iconDefinitions` entry `(iconId, definition)`; insert only when the
identifier is referenced, `iconPath` is truthy, and the normalized path
is truthy. -/
def bfiStep (fileIconIdSet : List String) (acc : Obj ZedPathIcon)
    (e : String × IconDefinition) : Obj ZedPathIcon :=
  if e.1 ∈ fileIconIdSet ∧ e.2.iconPath ≠ "" then
    match normalizeIconPath e.2 with
    | some path => if path = "" then acc else objInsert acc e.1 { path := path }
    | none => acc
  else acc

/-- The icon-definitions loop (src/build.ts:239-248): for every referenced
identifier with a truthy `iconPath` whose normalized path is truthy,
record the path under the identifier. -/
def buildFileIcons (iconDefinitions : Obj IconDefinition)
    (fileIconIdSet : List String) : Obj ZedPathIcon :=
  iconDefinitions.foldl (bfiStep fileIconIdSet) []

/-- `processLanguageIds` (src/build.ts:160-186); currently not called by
`convertManifest` (the call sites are commented out). -/
def processLanguageIds (languageIds : Option (Obj String))
    (iconDefinitions : Obj IconDefinition) (fileIcons : Obj ZedPathIcon) : Obj ZedPathIcon :=
  match languageIds with
  | none => fileIcons
  | some lids =>
    lids.foldl (fun acc e =>
      match objGet acc e.1 with
      | some _ => acc
      | none =>
        match objGet iconDefinitions e.2 with
        | none => acc
        | some iconDef =>
          if iconDef.iconPath = "" then acc
          else
            match normalizeIconPath iconDef with
            | some path => if path = "" then acc else objInsert acc e.1 { path := path }
            | none => acc) fileIcons

/-- Default directory icons of the dark variant (src/build.ts:212-219):
present iff both the `folder` and the `folderExpanded` identifiers resolve
through `iconDefinitions`. -/
def defaultDirectoryIcons (m : VSCodeIconsManifest) : Option ZedNamedDirectoryIcon :=
  match objGet m.iconDefinitions m.folder, objGet m.iconDefinitions m.folderExpanded with
  | some collapsed, some expanded =>
    some { collapsed := normalizeIconPath collapsed
           expanded := normalizeIconPath expanded }
  | _, _ => none

/-- Light directory icons (src/build.ts:270-281): only when both light keys
are truthy and both resolve; each field falls back (`||`) to the dark
variant's already-resolved value when the light path normalizes to null. -/
def lightDirectoryIcons (m : VSCodeIconsManifest) (light : VSCodeLightBlock)
    (darkTheme : ZedIconThemeVariant) : Option ZedNamedDirectoryIcon :=
  match light.folder, light.folderExpanded with
  | some lf, some lfe =>
    if lf = "" ∨ lfe = "" then none
    else
      match objGet m.iconDefinitions lf, objGet m.iconDefinitions lfe with
      | some collapsed, some expanded =>
        some { collapsed := jsOrStr (normalizeIconPath collapsed)
                 (darkTheme.directory_icons.bind ZedNamedDirectoryIcon.collapsed)
               expanded := jsOrStr (normalizeIconPath expanded)
                 (darkTheme.directory_icons.bind ZedNamedDirectoryIcon.expanded) }
      | _, _ => none
  | _, _ => none

/-- The dark variant built by `convertManifest` (src/build.ts:202-254 and
321-329), including the named directory icons assigned afterwards. -/
def convertDarkVariant (m : VSCodeIconsManifest) : ZedIconThemeVariant :=
  { name := "VSCode Icons"
    appearance := Appearance.dark
    directory_icons := defaultDirectoryIcons m
    named_directory_icons :=
      some (convertNamedDirectoryIcons m.folderNames m.folderNamesExpanded m.iconDefinitions)
    file_stems := objFromEntries m.fileNames
    file_suffixes := objFromEntries m.fileExtensions
    file_icons :=
      buildFileIcons m.iconDefinitions (collectIds m.fileExtensions (collectIds m.fileNames [])) }

/-- The light variant built by `convertManifest` (src/build.ts:257-318 and
331-344) when the source has a `light` block; `darkTheme` is the already
constructed dark variant used for directory-icon fallback. -/
def convertLightVariant (m : VSCodeIconsManifest) (light : VSCodeLightBlock)
    (darkTheme : ZedIconThemeVariant) : ZedIconThemeVariant :=
  { name := "VSCode Icons Light"
    appearance := Appearance.light
    directory_icons := lightDirectoryIcons m light darkTheme
    named_directory_icons :=
      some (convertNamedDirectoryIcons (light.folderNames.getD m.folderNames)
        (light.folderNamesExpanded.getD m.folderNamesExpanded) m.iconDefinitions)
    file_stems := objFromEntries (light.fileNames.getD [])
    file_suffixes := objFromEntries (light.fileExtensions.getD [])
    file_icons :=
      buildFileIcons m.iconDefinitions
        (collectIds (light.fileExtensions.getD []) (collectIds (light.fileNames.getD []) [])) }

/-- `convertManifest` (src/build.ts:191-347). -/
def convertManifest (m : VSCodeIconsManifest) : ZedIconTheme :=
  let darkTheme := convertDarkVariant m
  { schema := "https://zed.dev/schema/icon_themes/v0.3.0.json"
    name := "VSCode Icons Theme"
    author := "Chawye Hsu"
    themes :=
      match m.light with
      | some light => [darkTheme, convertLightVariant m light darkTheme]
      | none => [darkTheme] }

/-- The decision made by one `convertNamedDirectoryIcons` loop iteration
for directory name `dn` with collapsed identifier `ik`: the resolved icon
pair when every check of src/build.ts:383-393 passes, `none` otherwise. -/
def cndiResolve (folderNamesExpanded : Obj String) (iconDefinitions : Obj IconDefinition)
    (dn ik : String) : Option ZedNamedDirectoryIcon :=
  match objGet iconDefinitions ik with
  | none => none
  | some collapsedIconDef =>
    match objGet folderNamesExpanded dn with
    | none => none
    | some expandedIconKey =>
      if expandedIconKey = "" then none
      else
        match objGet iconDefinitions expandedIconKey with
        | none => none
        | some expandedIconDef =>
          some { collapsed := normalizeIconPath collapsedIconDef
                 expanded := normalizeIconPath expandedIconDef }

/-- Erase the `languageIds` field of a light block. -/
def scrubLight (l : VSCodeLightBlock) : VSCodeLightBlock :=
  { l with languageIds := none }

/-- Erase both `languageIds` fields of a manifest: two manifests differ at
most in their `languageIds` fields iff their scrubs are equal. -/
def scrubLanguageIds (m : VSCodeIconsManifest) : VSCodeIconsManifest :=
  { m with languageIds := none, light := m.light.map scrubLight }

/-- The end-to-end example manifest of the specification. -/
def exampleManifest : VSCodeIconsManifest :=
  { iconDefinitions := [("file_type_make", { iconPath := "/x/make.svg" }),
      ("folder", { iconPath := "/x/folder.svg" }),
      ("folder_open", { iconPath := "/x/folder_open.svg" })]
    folder := "folder"
    folderExpanded := "folder_open"
    folderNames := []
    folderNamesExpanded := []
    fileExtensions := []
    fileNames := [("Makefile", "file_type_make")]
    languageIds := none
    light := none }

/-- A manifest whose `fileNames` and `fileExtensions` reference the icon
identifier `"ghost"`, which is absent from `iconDefinitions`. -/
def ghostManifest : VSCodeIconsManifest :=
  { iconDefinitions := []
    folder := "folder"
    folderExpanded := "folder_open"
    folderNames := []
    folderNamesExpanded := []
    fileExtensions := [("mk", "ghost")]
    fileNames := [("a", "ghost")]
    languageIds := none
    light := none }

/-- A light block that overrides only `fileExtensions`. -/
def lightOnlyExtensions : VSCodeLightBlock :=
  { folder := none
    folderExpanded := none
    folderNames := none
    folderNamesExpanded := none
    fileExtensions := some [("ts", "file_type_make")]
    fileNames := none
    languageIds := none }

/-- The example manifest extended with a light block that overrides only
`fileExtensions`. -/
def lightOnlyExtensionsManifest : VSCodeIconsManifest :=
  { exampleManifest with light := some lightOnlyExtensions }

/-- Folder-name mappings in which the expanded identifier of directory
`"d"` is the empty string, while `iconDefinitions` does contain an entry
keyed by the empty string. -/
def emptyKeyFolderNames : Obj String := [("d", "k")]

def emptyKeyFolderNamesExpanded : Obj String := [("d", "")]

def emptyKeyIconDefinitions : Obj IconDefinition :=
  [("k", { iconPath := "/a/x.svg" }), ("", { iconPath := "/a/y.svg" })]

/-- Fully-resolving folder-name mappings for a positive witness. -/
def twoKeyFolderNames : Obj String := [("d", "k")]

def twoKeyFolderNamesExpanded : Obj String := [("d", "ke")]

def twoKeyIconDefinitions : Obj IconDefinition :=
  [("k", { iconPath := "/a/x.svg" }), ("ke", { iconPath := "/a/y.svg" })]

/-- The example manifest with a `languageIds` mapping added. -/
def exampleManifestWithLangIds : VSCodeIconsManifest :=
  { exampleManifest with languageIds := some [("typescript", "file_type_make")] }

/-- Runtime-level icon definition: in the untyped JS runtime the `iconPath`
field of a parsed JSON object may be absent (`undefined`), which the static
`IconDefinition` interface does not show. -/
structure IconDefinitionR where
  iconPath : Option String
deriving DecidableEq, Repr

/-- Runtime behavior of `normalizeIconPath` (src/build.ts:367-370): when the
`iconPath` field is absent, `definition.iconPath.substring(...)` reads a
property of `undefined` and throws a `TypeError`, modelled as `.error`;
when the field is present it behaves as `normalizeIconPath`. -/
def normalizeIconPathR (definition : IconDefinitionR) : Except String (Option String) :=
  match definition.iconPath with
  | none => Except.error "TypeError: Cannot read properties of undefined"
  | some p => Except.ok (normalizeIconPath { iconPath := p })

/-! ### Helper lemmas about the object and set model -/

theorem objGet_objInsert_self {α : Type} (o : Obj α) (k : String) (v : α) :
    objGet (objInsert o k v) k = some v := by
  induction o with
  | nil => simp [objInsert, objGet]
  | cons e rest ih =>
    obtain ⟨k', v'⟩ := e
    by_cases h : k = k' <;> simp [objInsert, objGet, h, ih]

theorem objGet_objInsert_ne {α : Type} (o : Obj α) (k k' : String) (v : α) (h : k' ≠ k) :
    objGet (objInsert o k v) k' = objGet o k' := by
  induction o with
  | nil => simp [objInsert, objGet, h]
  | cons e rest ih =>
    obtain ⟨k1, v1⟩ := e
    by_cases h1 : k = k1
    · subst h1
      simp [objInsert, objGet, h]
    · by_cases h2 : k' = k1 <;> simp [objInsert, objGet, h1, h2, ih]

theorem objGet_cons_self {α : Type} (rest : Obj α) (k : String) (v : α) :
    objGet ((k, v) :: rest) k = some v := by
  simp [objGet]

theorem objGet_cons_ne {α : Type} (rest : Obj α) (k k' : String) (v : α) (h : k' ≠ k) :
    objGet ((k, v) :: rest) k' = objGet rest k' := by
  simp [objGet, h]

theorem objGet_objInsert_isSome {α : Type} (o : Obj α) (k k' : String) (v : α)
    (h : (objGet o k').isSome) : (objGet (objInsert o k v) k').isSome := by
  by_cases hk : k' = k
  · subst hk
    simp [objGet_objInsert_self]
  · rwa [objGet_objInsert_ne _ _ _ _ hk]

theorem objGet_foldl_insert_not_mem {α : Type} (l : List (String × α)) (acc : Obj α)
    (k : String) (h : k ∉ l.map Prod.fst) :
    objGet (l.foldl (fun o e => objInsert o e.1 e.2) acc) k = objGet acc k := by
  induction l generalizing acc with
  | nil => rfl
  | cons e rest ih =>
    simp only [List.map_cons, List.mem_cons] at h
    push_neg at h
    simp only [List.foldl_cons]
    rw [ih _ h.2, objGet_objInsert_ne _ _ _ _ h.1]

theorem objGet_foldl_insert {α : Type} (l : List (String × α)) (acc : Obj α) (k : String)
    (h : (l.map Prod.fst).Nodup) :
    objGet (l.foldl (fun o e => objInsert o e.1 e.2) acc) k =
      (objGet l k).elim (objGet acc k) some := by
  induction l generalizing acc with
  | nil => rfl
  | cons e rest ih =>
    obtain ⟨k1, v1⟩ := e
    simp only [List.map_cons, List.nodup_cons] at h
    simp only [List.foldl_cons]
    by_cases hk : k = k1
    · subst hk
      rw [objGet_foldl_insert_not_mem _ _ _ h.1, objGet_objInsert_self]
      simp [objGet]
    · rw [ih _ h.2, objGet_objInsert_ne _ _ _ _ hk]
      simp [objGet, hk]

theorem objGet_objFromEntries {α : Type} (l : List (String × α)) (k : String)
    (h : (l.map Prod.fst).Nodup) :
    objGet (objFromEntries l) k = objGet l k := by
  unfold objFromEntries
  rw [objGet_foldl_insert _ _ _ h]
  cases objGet l k <;> rfl

theorem mem_setAdd (s : List String) (x y : String) :
    y ∈ setAdd s x ↔ y ∈ s ∨ y = x := by
  unfold setAdd
  by_cases h : x ∈ s
  · simp only [if_pos h]
    constructor
    · exact Or.inl
    · rintro (hy | rfl)
      · exact hy
      · exact h
  · simp [if_neg h]

theorem mem_collectIds_init (l : Obj String) (s : List String) (x : String)
    (h : x ∈ s) : x ∈ collectIds l s := by
  induction l generalizing s with
  | nil => exact h
  | cons e rest ih => exact ih _ ((mem_setAdd _ _ _).mpr (Or.inl h))

theorem mem_collectIds_of_mem (l : Obj String) (s : List String) (n x : String)
    (h : (n, x) ∈ l) : x ∈ collectIds l s := by
  induction l generalizing s with
  | nil => cases h
  | cons e rest ih =>
    rcases List.mem_cons.mp h with he | h'
    · have hx : x ∈ setAdd s e.2 := by
        rw [← he]
        exact (mem_setAdd _ _ _).mpr (Or.inr rfl)
      exact mem_collectIds_init rest _ x hx
    · exact ih _ h'

/-! ### Helper lemmas about `lastSegment` and `normalizeIconPath` -/

theorem takeWhile_of_all {p : Char → Bool} (l : List Char) (h : ∀ a ∈ l, p a) :
    l.takeWhile p = l := by
  induction l with
  | nil => rfl
  | cons a rest ih =>
    rw [List.takeWhile_cons, if_pos (h a (List.mem_cons_self a rest))]
    rw [ih (fun x hx => h x (List.mem_cons_of_mem a hx))]

theorem takeWhile_append_of_all {p : Char → Bool} (l1 l2 : List Char) (h : ∀ a ∈ l1, p a) :
    (l1 ++ l2).takeWhile p = l1 ++ l2.takeWhile p := by
  induction l1 with
  | nil => rfl
  | cons a rest ih =>
    rw [List.cons_append, List.takeWhile_cons, if_pos (h a (List.mem_cons_self a rest))]
    rw [ih (fun x hx => h x (List.mem_cons_of_mem a hx)), List.cons_append]

theorem asString_data (s : String) : s.data.asString = s := by
  cases s
  rfl

theorem string_eq_empty_iff (s : String) : s = "" ↔ s.data = [] := by
  rw [String.ext_iff]

theorem lastSegment_concat (u t : String) (ht : '/' ∉ t.data) :
    lastSegment (u ++ "/" ++ t) = t := by
  unfold lastSegment
  have hsep : ("/" : String).data = ['/'] := rfl
  rw [String.data_append, String.data_append, hsep]
  rw [List.reverse_append, List.reverse_append]
  have hall : ∀ a ∈ t.data.reverse, (fun c => decide (c ≠ '/')) a = true := by
    intro a ha
    simp only [decide_eq_true_eq]
    intro hc
    exact ht (by rw [← hc]; exact List.mem_reverse.mp ha)
  rw [takeWhile_append_of_all _ _ hall]
  have hstop : (((['/'] : List Char).reverse ++ u.data.reverse).takeWhile
      (fun c => decide (c ≠ '/'))) = [] := by
    rfl
  rw [hstop, List.append_nil, List.reverse_reverse, asString_data]

theorem lastSegment_no_slash (u : String) (h : '/' ∉ u.data) : lastSegment u = u := by
  unfold lastSegment
  have hall : ∀ a ∈ u.data.reverse, (fun c => decide (c ≠ '/')) a = true := by
    intro a ha
    simp only [decide_eq_true_eq]
    intro hc
    exact h (by rw [← hc]; exact List.mem_reverse.mp ha)
  rw [takeWhile_of_all _ hall, List.reverse_reverse, asString_data]

theorem normalizeIconPath_eq_of_seg (d : IconDefinition) (t : String)
    (hseg : lastSegment d.iconPath = t) :
    normalizeIconPath d = (if t = "" then none else some ("./icons/" ++ t)) := by
  unfold normalizeIconPath
  rw [hseg]
  by_cases h : t = ""
  · subst h
    rfl
  · have hpos : t.length > 0 := by
      have : t.data ≠ [] := fun hd => h ((string_eq_empty_iff t).mpr hd)
      exact List.length_pos.mpr this
    rw [if_pos hpos, if_neg h]

theorem normalizeIconPath_some_facts (d : IconDefinition) (p : String)
    (h : normalizeIconPath d = some p) : d.iconPath ≠ "" ∧ p ≠ "" := by
  unfold normalizeIconPath at h
  by_cases hl : (lastSegment d.iconPath).length > 0
  · rw [if_pos hl] at h
    have hp := Option.some.inj h
    constructor
    · intro he
      rw [he] at hl
      exact absurd hl (by decide)
    · intro hpe
      rw [← hp] at hpe
      have : ("./icons/" ++ lastSegment d.iconPath).data = [] := (string_eq_empty_iff _).mp hpe
      rw [String.data_append] at this
      exact absurd (List.append_eq_nil.mp this).1 (by decide)
  · rw [if_neg hl] at h
    cases h

/-! ### Helper lemmas about `buildFileIcons` -/

theorem bfiStep_key_ne (s : List String) (acc : Obj ZedPathIcon)
    (e : String × IconDefinition) (k : String) (h : k ≠ e.1) :
    objGet (bfiStep s acc e) k = objGet acc k := by
  unfold bfiStep
  by_cases hc : e.1 ∈ s ∧ e.2.iconPath ≠ ""
  · rw [if_pos hc]
    cases normalizeIconPath e.2 with
    | none => rfl
    | some path =>
      by_cases hp : path = ""
      · simp [hp]
      · simp only [if_neg hp]
        exact objGet_objInsert_ne _ _ _ _ h
  · rw [if_neg hc]

theorem bfi_foldl_not_mem (defs : Obj IconDefinition) (s : List String)
    (acc : Obj ZedPathIcon) (k : String) (h : objGet defs k = none) :
    objGet (defs.foldl (bfiStep s) acc) k = objGet acc k := by
  induction defs generalizing acc with
  | nil => rfl
  | cons e rest ih =>
    obtain ⟨k1, d1⟩ := e
    by_cases hk : k = k1
    · simp [objGet, hk] at h
    · simp only [objGet, if_neg hk] at h
      simp only [List.foldl_cons]
      rw [ih _ h, bfiStep_key_ne _ _ _ _ hk]

theorem buildFileIcons_dangling (defs : Obj IconDefinition) (s : List String) (k : String)
    (h : objGet defs k = none) : objGet (buildFileIcons defs s) k = none := by
  unfold buildFileIcons
  rw [bfi_foldl_not_mem _ _ _ _ h]
  rfl

theorem buildFileIcons_key_sub (defs : Obj IconDefinition) (s : List String) (k : String)
    (h : (objGet (buildFileIcons defs s) k).isSome) : (objGet defs k).isSome := by
  cases hd : objGet defs k with
  | some d => rfl
  | none =>
    rw [buildFileIcons_dangling _ _ _ hd] at h
    cases h

theorem bfi_foldl_isSome (defs : Obj IconDefinition) (s : List String)
    (acc : Obj ZedPathIcon) (k : String) (h : (objGet acc k).isSome) :
    (objGet (defs.foldl (bfiStep s) acc) k).isSome := by
  induction defs generalizing acc with
  | nil => exact h
  | cons e rest ih =>
    simp only [List.foldl_cons]
    apply ih
    unfold bfiStep
    by_cases hc : e.1 ∈ s ∧ e.2.iconPath ≠ ""
    · rw [if_pos hc]
      cases normalizeIconPath e.2 with
      | none => exact h
      | some path =>
        by_cases hp : path = ""
        · simpa [hp] using h
        · simp only [if_neg hp]
          exact objGet_objInsert_isSome _ _ _ _ h
    · rwa [if_neg hc]

theorem bfi_foldl_insert (defs : Obj IconDefinition) (s : List String)
    (acc : Obj ZedPathIcon) (k : String) (d : IconDefinition) (p : String)
    (hdef : objGet defs k = some d) (hmem : k ∈ s)
    (hnorm : normalizeIconPath d = some p) :
    (objGet (defs.foldl (bfiStep s) acc) k).isSome := by
  induction defs generalizing acc with
  | nil => cases hdef
  | cons e rest ih =>
    obtain ⟨k1, d1⟩ := e
    simp only [List.foldl_cons]
    by_cases hk : k = k1
    · subst hk
      rw [objGet_cons_self] at hdef
      obtain rfl : d = d1 := (Option.some.inj hdef).symm
      apply bfi_foldl_isSome
      obtain ⟨hip, hpne⟩ := normalizeIconPath_some_facts _ _ hnorm
      simp only [bfiStep, hnorm]
      rw [if_pos ⟨hmem, hip⟩, if_neg hpne]
      simp [objGet_objInsert_self]
    · rw [objGet_cons_ne _ _ _ _ hk] at hdef
      exact ih _ hdef


theorem buildFileIcons_insert (defs : Obj IconDefinition) (s : List String)
    (k : String) (d : IconDefinition) (p : String)
    (hdef : objGet defs k = some d) (hmem : k ∈ s)
    (hnorm : normalizeIconPath d = some p) :
    (objGet (buildFileIcons defs s) k).isSome := by
  unfold buildFileIcons
  exact bfi_foldl_insert defs s [] k d p hdef hmem hnorm

/-! ### Helper lemmas about `convertNamedDirectoryIcons` -/

theorem cndiStep_eq (fne : Obj String) (defs : Obj IconDefinition)
    (acc : Obj ZedNamedDirectoryIcon) (e : String × String) :
    cndiStep fne defs acc e =
      match cndiResolve fne defs e.1 e.2 with
      | some v => objInsert acc e.1 v
      | none => acc := by
  unfold cndiStep cndiResolve
  cases objGet defs e.2 with
  | none => rfl
  | some cdef =>
    cases objGet fne e.1 with
    | none => rfl
    | some ek =>
      by_cases h : ek = ""
      · simp [h]
      · simp only [if_neg h]
        cases objGet defs ek <;> rfl

theorem cndiStep_key_ne (fne : Obj String) (defs : Obj IconDefinition)
    (acc : Obj ZedNamedDirectoryIcon) (e : String × String) (k : String) (h : k ≠ e.1) :
    objGet (cndiStep fne defs acc e) k = objGet acc k := by
  rw [cndiStep_eq]
  cases cndiResolve fne defs e.1 e.2 with
  | none => rfl
  | some v => exact objGet_objInsert_ne _ _ _ _ h

theorem cndi_foldl_not_mem (fne : Obj String) (defs : Obj IconDefinition) (fn : Obj String)
    (acc : Obj ZedNamedDirectoryIcon) (k : String) (h : k ∉ fn.map Prod.fst) :
    objGet (fn.foldl (cndiStep fne defs) acc) k = objGet acc k := by
  induction fn generalizing acc with
  | nil => rfl
  | cons e rest ih =>
    simp only [List.map_cons, List.mem_cons] at h
    push_neg at h
    simp only [List.foldl_cons]
    rw [ih _ h.2, cndiStep_key_ne _ _ _ _ _ h.1]

theorem cndi_foldl_get (fne : Obj String) (defs : Obj IconDefinition) (fn : Obj String)
    (acc : Obj ZedNamedDirectoryIcon) (dn : String) (h : (fn.map Prod.fst).Nodup) :
    objGet (fn.foldl (cndiStep fne defs) acc) dn =
      (((objGet fn dn).bind (cndiResolve fne defs dn)).map some).getD (objGet acc dn) := by
  induction fn generalizing acc with
  | nil => rfl
  | cons e rest ih =>
    obtain ⟨k1, ik1⟩ := e
    simp only [List.map_cons, List.nodup_cons] at h
    simp only [List.foldl_cons]
    by_cases hk : dn = k1
    · subst hk
      rw [cndi_foldl_not_mem _ _ _ _ _ h.1, cndiStep_eq]
      rw [objGet_cons_self]
      simp only [Option.some_bind]
      cases cndiResolve fne defs dn ik1 with
      | none => rfl
      | some v =>
        simp only [Option.map_some', Option.getD_some]
        exact objGet_objInsert_self _ _ _
    · rw [ih _ h.2, objGet_cons_ne _ _ _ _ hk,
        cndiStep_key_ne fne defs acc (k1, ik1) dn hk]

theorem cndiResolve_isSome (fne : Obj String) (defs : Obj IconDefinition) (dn ik : String) :
    (cndiResolve fne defs dn ik).isSome ↔
      ((objGet defs ik).isSome ∧
        ∃ ek, objGet fne dn = some ek ∧ ek ≠ "" ∧ (objGet defs ek).isSome) := by
  unfold cndiResolve
  split
  · simp_all
  · split
    · simp_all
    · split
      · simp_all
      · split
        · simp_all
        · simp_all

/-! ### Helper lemmas about `convertManifest` -/

theorem convertManifest_themes (m : VSCodeIconsManifest) :
    (convertManifest m).themes =
      match m.light with
      | some light => [convertDarkVariant m, convertLightVariant m light (convertDarkVariant m)]
      | none => [convertDarkVariant m] := rfl

theorem convertManifest_head (m : VSCodeIconsManifest) :
    (convertManifest m).themes.head? = some (convertDarkVariant m) := by
  rw [convertManifest_themes]
  cases m.light <;> rfl

theorem convertManifest_get1 (m : VSCodeIconsManifest) (l : VSCodeLightBlock)
    (h : m.light = some l) :
    (convertManifest m).themes.get? 1 =
      some (convertLightVariant m l (convertDarkVariant m)) := by
  rw [convertManifest_themes, h]
  rfl

theorem mem_themes (m : VSCodeIconsManifest) (v : ZedIconThemeVariant)
    (h : v ∈ (convertManifest m).themes) :
    v = convertDarkVariant m ∨
      ∃ l, m.light = some l ∧ v = convertLightVariant m l (convertDarkVariant m) := by
  rw [convertManifest_themes] at h
  cases hl : m.light with
  | none =>
    rw [hl] at h
    simp only [List.mem_singleton] at h
    exact Or.inl h
  | some l =>
    rw [hl] at h
    simp only [List.mem_cons, List.not_mem_nil, or_false] at h
    rcases h with h | h
    · exact Or.inl h
    · exact Or.inr ⟨l, rfl, h⟩

/-- Complete characterization of when the light variant's directory icons
are omitted: exactly when it is not the case that both light directory
keys are present, non-empty (JS truthy) and resolve through
`iconDefinitions`. -/
theorem lightDirectoryIcons_none_iff (m : VSCodeIconsManifest) (l : VSCodeLightBlock)
    (darkTheme : ZedIconThemeVariant) :
    lightDirectoryIcons m l darkTheme = none ↔
      ¬∃ lf lfe, l.folder = some lf ∧ lf ≠ "" ∧ l.folderExpanded = some lfe ∧ lfe ≠ "" ∧
        (objGet m.iconDefinitions lf).isSome ∧ (objGet m.iconDefinitions lfe).isSome := by
  cases hlf : l.folder with
  | none => simp [lightDirectoryIcons, hlf]
  | some lf =>
    cases hlfe : l.folderExpanded with
    | none => simp [lightDirectoryIcons, hlf, hlfe]
    | some lfe =>
      by_cases he : lf = "" ∨ lfe = ""
      · simp only [lightDirectoryIcons, hlf, hlfe, if_pos he]
        rcases he with he | he <;> simp [he]
      · push_neg at he
        simp only [lightDirectoryIcons, hlf, hlfe, if_neg (not_or.mpr he)]
        cases hc : objGet m.iconDefinitions lf with
        | none => simp [hc, he.1, he.2]
        | some c =>
          cases hce : objGet m.iconDefinitions lfe with
          | none => simp [hc, hce, he.1, he.2]
          | some e2 => simp [hc, hce, he.1, he.2]

/-! ### The claims -/

/-- C1: on the spec's end-to-end example manifest (`fileNames` maps
`Makefile` to `file_type_make`, empty `fileExtensions`, `folder`/
`folder_open` default directory identifiers, three icon definitions, no
`light` block), `convertManifest` returns exactly one dark variant with
`file_stems = {Makefile ↦ file_type_make}`,
`file_icons = {file_type_make ↦ ./icons/make.svg}` and
`directory_icons = {collapsed ↦ ./icons/folder.svg, expanded ↦
./icons/folder_open.svg}`. -/
theorem spec_C1_end_to_end :
    (convertManifest exampleManifest).themes.map
      (fun v => (v.appearance, v.file_stems, v.file_icons, v.directory_icons)) =
      [(Appearance.dark,
        [("Makefile", "file_type_make")],
        [("file_type_make", { path := "./icons/make.svg" })],
        some { collapsed := some "./icons/folder.svg",
               expanded := some "./icons/folder_open.svg" })] := by
  rfl

/-- C6: `convertManifest` emits exactly one dark variant, followed by a
light variant iff the source manifest has a `light` block; with no `light`
block the variant sequence is exactly one dark entry. -/
theorem spec_C6_variant_sequence (m : VSCodeIconsManifest) :
    (convertManifest m).themes.map ZedIconThemeVariant.appearance =
      match m.light with
      | some _ => [Appearance.dark, Appearance.light]
      | none => [Appearance.dark] := by
  rw [convertManifest_themes]
  cases m.light <;> rfl

/-- C10: the dark variant's `directory_icons` field is present iff both the
`folder` and the `folderExpanded` identifiers resolve through
`iconDefinitions`; when either fails the field is omitted, and when present
the `collapsed`/`expanded` values are the normalized paths of the two
resolved definitions. -/
theorem spec_C10_default_directory_icons (m : VSCodeIconsManifest) :
    ∃ v, (convertManifest m).themes.head? = some v ∧ v.appearance = Appearance.dark ∧
      (v.directory_icons.isSome ↔
        ((objGet m.iconDefinitions m.folder).isSome ∧
          (objGet m.iconDefinitions m.folderExpanded).isSome)) ∧
      (∀ c e, objGet m.iconDefinitions m.folder = some c →
        objGet m.iconDefinitions m.folderExpanded = some e →
        v.directory_icons = some { collapsed := normalizeIconPath c
                                   expanded := normalizeIconPath e }) := by
  refine ⟨convertDarkVariant m, convertManifest_head m, rfl, ?_, ?_⟩
  · show (defaultDirectoryIcons m).isSome ↔ _
    unfold defaultDirectoryIcons
    rcases objGet m.iconDefinitions m.folder with _ | c <;>
      rcases objGet m.iconDefinitions m.folderExpanded with _ | e <;> simp
  · intro c e hc he
    show defaultDirectoryIcons m = _
    unfold defaultDirectoryIcons
    rw [hc, he]

/-- Witness for C10 at the example manifest. -/
theorem spec_C10_witness :
    ∃ v, (convertManifest exampleManifest).themes.head? = some v ∧
      v.appearance = Appearance.dark ∧
      (v.directory_icons.isSome ↔
        ((objGet exampleManifest.iconDefinitions exampleManifest.folder).isSome ∧
          (objGet exampleManifest.iconDefinitions exampleManifest.folderExpanded).isSome)) ∧
      (∀ c e, objGet exampleManifest.iconDefinitions exampleManifest.folder = some c →
        objGet exampleManifest.iconDefinitions exampleManifest.folderExpanded = some e →
        v.directory_icons = some { collapsed := normalizeIconPath c
                                   expanded := normalizeIconPath e }) :=
  spec_C10_default_directory_icons exampleManifest

/-- C2: `normalizeIconPath` returns `./icons/` followed by the substring of
`iconPath` after the last `'/'` when that substring is non-empty, and null
when it is empty; a path with no `'/'` at all is used whole unless empty.
Every string with a slash decomposes as `u ++ "/" ++ t` with `t`
slash-free, `t` being exactly the substring after the last slash. -/
theorem spec_C2_normalize_last_segment (u t : String) (ht : '/' ∉ t.data) :
    normalizeIconPath { iconPath := u ++ "/" ++ t } =
      (if t = "" then none else some ("./icons/" ++ t)) ∧
    ('/' ∉ u.data → normalizeIconPath { iconPath := u } =
      (if u = "" then none else some ("./icons/" ++ u))) := by
  constructor
  · exact normalizeIconPath_eq_of_seg _ _ (lastSegment_concat u t ht)
  · intro hu
    exact normalizeIconPath_eq_of_seg _ _ (lastSegment_no_slash u hu)

/-- Witness for C2 at `iconPath = "x/make.svg"` and the slash-free path
`"x"`. -/
theorem spec_C2_witness :
    normalizeIconPath { iconPath := "x" ++ "/" ++ "make.svg" } =
      (if ("make.svg" : String) = "" then none else some ("./icons/" ++ "make.svg")) ∧
    normalizeIconPath { iconPath := "x" } =
      (if ("x" : String) = "" then none else some ("./icons/" ++ "x")) := by
  have h := spec_C2_normalize_last_segment "x" "make.svg" (by decide)
  exact ⟨h.1, h.2 (by decide)⟩

/-- C3 counterexample: at the runtime input whose `iconPath` field is
absent, `normalizeIconPath` throws a `TypeError` instead of returning the
no-path result, so it is not total on malformed input. -/
theorem spec_C3_cex :
    normalizeIconPathR { iconPath := none } =
      Except.error "TypeError: Cannot read properties of undefined" := rfl

/-- C3 amended: `normalizeIconPath` returns a result (never an error)
exactly when the `iconPath` field is present; an empty `iconPath` yields
the no-path result without error, but an absent field throws. -/
theorem spec_C3_amended (d : IconDefinitionR) :
    ((∃ r, normalizeIconPathR d = Except.ok r) ↔ d.iconPath ≠ none) ∧
    (d.iconPath = some "" → normalizeIconPathR d = Except.ok none) := by
  obtain ⟨ip⟩ := d
  cases ip with
  | none => simp [normalizeIconPathR]
  | some p =>
    constructor
    · simp [normalizeIconPathR]
    · intro h
      obtain rfl : p = "" := Option.some.inj h
      rfl

/-- Witness for C3's amended claim at `iconPath = some ""`. -/
theorem spec_C3_amended_witness :
    normalizeIconPathR { iconPath := some "" } = Except.ok none :=
  (spec_C3_amended { iconPath := some "" }).2 rfl

/-- C4 counterexample: directory `"d"` has collapsed identifier `"k"`
resolving through the icon definitions, and an entry in the expanded
mapping whose identifier (the empty string) also resolves, yet `"d"` is
absent from the output: the converter treats a falsy (empty-string)
expanded identifier as missing. -/
theorem spec_C4_cex :
    (objGet emptyKeyIconDefinitions "k").isSome = true ∧
    objGet emptyKeyFolderNamesExpanded "d" = some "" ∧
    (objGet emptyKeyIconDefinitions "").isSome = true ∧
    objGet (convertNamedDirectoryIcons emptyKeyFolderNames emptyKeyFolderNamesExpanded
      emptyKeyIconDefinitions) "d" = none := by
  refine ⟨rfl, rfl, rfl, rfl⟩

/-- C4 amended: for mappings with unique collapsed keys, a directory name
appears in the output of `convertNamedDirectoryIcons` iff its collapsed
identifier resolves through the icon definitions AND the same name has an
entry in the expanded mapping whose identifier is non-empty (JS truthy)
and also resolves; names satisfying only part of this appear nowhere. -/
theorem spec_C4_amended (fn fne : Obj String) (defs : Obj IconDefinition) (dn : String)
    (h : (fn.map Prod.fst).Nodup) :
    (objGet (convertNamedDirectoryIcons fn fne defs) dn).isSome ↔
      ∃ ik, objGet fn dn = some ik ∧ (objGet defs ik).isSome ∧
        ∃ ek, objGet fne dn = some ek ∧ ek ≠ "" ∧ (objGet defs ek).isSome := by
  unfold convertNamedDirectoryIcons
  rw [cndi_foldl_get _ _ _ _ _ h]
  rcases hget : objGet fn dn with _ | ik
  · simp [objGet]
  · simp only [Option.some_bind]
    cases hres : cndiResolve fne defs dn ik with
    | none =>
      simp only [Option.map_none', Option.getD_none]
      constructor
      · intro hh
        simp [objGet] at hh
      · rintro ⟨ik', hik', hdef, hrest⟩
        obtain rfl : ik = ik' := Option.some.inj hik'
        have hs : (cndiResolve fne defs dn ik).isSome :=
          (cndiResolve_isSome fne defs dn ik).mpr ⟨hdef, hrest⟩
        rw [hres] at hs
        cases hs
    | some v =>
      simp only [Option.map_some', Option.getD_some, Option.isSome_some, true_iff]
      have hsome : (cndiResolve fne defs dn ik).isSome := by rw [hres]; rfl
      obtain ⟨hdef, hrest⟩ := (cndiResolve_isSome fne defs dn ik).mp hsome
      exact ⟨ik, rfl, hdef, hrest⟩

/-- Witness for C4's amended claim on a fully-resolving concrete input. -/
theorem spec_C4_amended_witness :
    (objGet (convertNamedDirectoryIcons twoKeyFolderNames twoKeyFolderNamesExpanded
        twoKeyIconDefinitions) "d").isSome ↔
      ∃ ik, objGet twoKeyFolderNames "d" = some ik ∧
        (objGet twoKeyIconDefinitions ik).isSome ∧
        ∃ ek, objGet twoKeyFolderNamesExpanded "d" = some ek ∧ ek ≠ "" ∧
          (objGet twoKeyIconDefinitions ek).isSome :=
  spec_C4_amended twoKeyFolderNames twoKeyFolderNamesExpanded
    twoKeyIconDefinitions "d" (by decide)

/-- C5 counterexample: on the example manifest extended with a light block
overriding only `fileExtensions`, the light variant's file-suffix mapping
reflects the override but its `directory_icons` field is absent (`none`),
not equal to the dark variant's resolved values. -/
theorem spec_C5_cex :
    (convertManifest lightOnlyExtensionsManifest).themes.map
      (fun v => v.directory_icons) =
      [some { collapsed := some "./icons/folder.svg",
              expanded := some "./icons/folder_open.svg" }, none] ∧
    (convertManifest lightOnlyExtensionsManifest).themes.map
      (fun v => v.file_suffixes) = [[], [("ts", "file_type_make")]] := by
  exact ⟨rfl, rfl⟩

/-- C5 amended: the light variant's `directory_icons` is omitted (none)
exactly when it is not the case that both light directory keys are present,
non-empty and resolve through `iconDefinitions` — so a missing key, an
empty-string key, and a key failing to resolve all omit the field entirely
rather than falling back to dark values; when both keys are present,
non-empty and resolve, each field falls back (JS `||`) to the dark
variant's already-resolved value when the light path normalizes to null;
and a light block overriding only `fileExtensions` yields a light
file-suffix mapping reflecting the override (with, per the above,
`directory_icons` absent). -/
theorem spec_C5_amended (m : VSCodeIconsManifest) (l : VSCodeLightBlock)
    (h : m.light = some l) :
    ∃ dv lv, (convertManifest m).themes = [dv, lv] ∧
      (lv.directory_icons = none ↔
        ¬∃ lf lfe, l.folder = some lf ∧ lf ≠ "" ∧ l.folderExpanded = some lfe ∧ lfe ≠ "" ∧
          (objGet m.iconDefinitions lf).isSome ∧ (objGet m.iconDefinitions lfe).isSome) ∧
      (∀ lf lfe c e, l.folder = some lf → l.folderExpanded = some lfe →
        lf ≠ "" → lfe ≠ "" →
        objGet m.iconDefinitions lf = some c → objGet m.iconDefinitions lfe = some e →
        lv.directory_icons = some
          { collapsed := jsOrStr (normalizeIconPath c)
              (dv.directory_icons.bind ZedNamedDirectoryIcon.collapsed)
            expanded := jsOrStr (normalizeIconPath e)
              (dv.directory_icons.bind ZedNamedDirectoryIcon.expanded) }) ∧
      (∀ fe, l.fileExtensions = some fe → lv.file_suffixes = objFromEntries fe) := by
  refine ⟨convertDarkVariant m, convertLightVariant m l (convertDarkVariant m),
    by rw [convertManifest_themes, h], ?_, ?_, ?_⟩
  · show lightDirectoryIcons m l (convertDarkVariant m) = none ↔ _
    exact lightDirectoryIcons_none_iff m l (convertDarkVariant m)
  · intro lf lfe c e hlf hlfe hlfne hlfene hc he
    show lightDirectoryIcons m l (convertDarkVariant m) = _
    simp [lightDirectoryIcons, hlf, hlfe, hlfne, hlfene, hc, he]
  · intro fe hfe
    show objFromEntries (l.fileExtensions.getD []) = objFromEntries fe
    rw [hfe, Option.getD_some]

/-- Witness for C5's amended claim at the light-block example manifest. -/
theorem spec_C5_amended_witness :
    ∃ dv lv, (convertManifest lightOnlyExtensionsManifest).themes = [dv, lv] ∧
      (lv.directory_icons = none ↔
        ¬∃ lf lfe, lightOnlyExtensions.folder = some lf ∧ lf ≠ "" ∧
          lightOnlyExtensions.folderExpanded = some lfe ∧ lfe ≠ "" ∧
          (objGet lightOnlyExtensionsManifest.iconDefinitions lf).isSome ∧
          (objGet lightOnlyExtensionsManifest.iconDefinitions lfe).isSome) ∧
      (∀ lf lfe c e, lightOnlyExtensions.folder = some lf →
        lightOnlyExtensions.folderExpanded = some lfe →
        lf ≠ "" → lfe ≠ "" →
        objGet lightOnlyExtensionsManifest.iconDefinitions lf = some c →
        objGet lightOnlyExtensionsManifest.iconDefinitions lfe = some e →
        lv.directory_icons = some
          { collapsed := jsOrStr (normalizeIconPath c)
              (dv.directory_icons.bind ZedNamedDirectoryIcon.collapsed)
            expanded := jsOrStr (normalizeIconPath e)
              (dv.directory_icons.bind ZedNamedDirectoryIcon.expanded) }) ∧
      (∀ fe, lightOnlyExtensions.fileExtensions = some fe →
        lv.file_suffixes = objFromEntries fe) :=
  spec_C5_amended lightOnlyExtensionsManifest lightOnlyExtensions rfl

/-- C7: an icon identifier referenced by `fileNames` or `fileExtensions`
but absent from `iconDefinitions` gets no `file_icons` entry in any
variant, while the dark variant's `file_stems`/`file_suffixes` still carry
the raw identifier verbatim as their value. -/
theorem spec_C7_dangling (m : VSCodeIconsManifest) (iconId : String)
    (hn : (m.fileNames.map Prod.fst).Nodup)
    (hs : (m.fileExtensions.map Prod.fst).Nodup)
    (hd : objGet m.iconDefinitions iconId = none) :
    (∀ v ∈ (convertManifest m).themes, objGet v.file_icons iconId = none) ∧
    (∀ v, (convertManifest m).themes.head? = some v →
      (∀ n, objGet m.fileNames n = some iconId → objGet v.file_stems n = some iconId) ∧
      (∀ ext, objGet m.fileExtensions ext = some iconId →
        objGet v.file_suffixes ext = some iconId)) := by
  constructor
  · intro v hv
    rcases mem_themes m v hv with rfl | ⟨l, hl, rfl⟩
    · exact buildFileIcons_dangling _ _ _ hd
    · exact buildFileIcons_dangling _ _ _ hd
  · intro v hv
    rw [convertManifest_head] at hv
    obtain rfl := Option.some.inj hv
    constructor
    · intro n hn2
      show objGet (objFromEntries m.fileNames) n = some iconId
      rw [objGet_objFromEntries _ _ hn]
      exact hn2
    · intro ext hext
      show objGet (objFromEntries m.fileExtensions) ext = some iconId
      rw [objGet_objFromEntries _ _ hs]
      exact hext

/-- Witness for C7 at the ghost manifest (identifier `"ghost"` dangling). -/
theorem spec_C7_witness :
    (∀ v ∈ (convertManifest ghostManifest).themes, objGet v.file_icons "ghost" = none) ∧
    (∀ v, (convertManifest ghostManifest).themes.head? = some v →
      (∀ n, objGet ghostManifest.fileNames n = some "ghost" →
        objGet v.file_stems n = some "ghost") ∧
      (∀ ext, objGet ghostManifest.fileExtensions ext = some "ghost" →
        objGet v.file_suffixes ext = some "ghost")) :=
  spec_C7_dangling ghostManifest "ghost" (by decide) (by decide) rfl

/-- C8 counterexample: on the ghost manifest the dark variant's
`file_stems` carries the icon key `"ghost"` as a value, yet the variant's
`file_icons` table has no entry for it, violating the claimed referential
invariant. -/
theorem spec_C8_cex :
    (convertManifest ghostManifest).themes.map
      (fun v => (objGet v.file_stems "a", objGet v.file_icons "ghost")) =
      [(some "ghost", none)] := rfl

/-- C8 amended: an icon key appearing as a value of a variant's file-name
or file-suffix source mapping has an entry in that variant's `file_icons`
table provided the key resolves through `iconDefinitions` to a definition
whose normalized icon path exists; unresolvable (dangling) keys are the
sole exception to the claimed invariant. -/
theorem spec_C8_amended (m : VSCodeIconsManifest) (iconId : String) (d : IconDefinition)
    (hdef : objGet m.iconDefinitions iconId = some d)
    (hnorm : (normalizeIconPath d).isSome) :
    ((∃ n, (n, iconId) ∈ m.fileNames) ∨ (∃ e, (e, iconId) ∈ m.fileExtensions) →
      ∀ v, (convertManifest m).themes.head? = some v →
        (objGet v.file_icons iconId).isSome) ∧
    (∀ l, m.light = some l →
      ((∃ fns n, l.fileNames = some fns ∧ (n, iconId) ∈ fns) ∨
       (∃ fes e, l.fileExtensions = some fes ∧ (e, iconId) ∈ fes)) →
      ∀ v, (convertManifest m).themes.get? 1 = some v →
        (objGet v.file_icons iconId).isSome) := by
  obtain ⟨p, hp⟩ := Option.isSome_iff_exists.mp hnorm
  constructor
  · intro href v hv
    rw [convertManifest_head] at hv
    obtain rfl := Option.some.inj hv
    show (objGet (buildFileIcons m.iconDefinitions
      (collectIds m.fileExtensions (collectIds m.fileNames []))) iconId).isSome
    apply buildFileIcons_insert _ _ _ d p hdef _ hp
    rcases href with ⟨n, hmem⟩ | ⟨e, hmem⟩
    · exact mem_collectIds_init _ _ _ (mem_collectIds_of_mem _ _ _ _ hmem)
    · exact mem_collectIds_of_mem _ _ _ _ hmem
  · intro l hl href v hv
    rw [convertManifest_get1 m l hl] at hv
    obtain rfl := Option.some.inj hv
    show (objGet (buildFileIcons m.iconDefinitions
      (collectIds (l.fileExtensions.getD [])
        (collectIds (l.fileNames.getD []) []))) iconId).isSome
    apply buildFileIcons_insert _ _ _ d p hdef _ hp
    rcases href with ⟨fns, n, hfns, hmem⟩ | ⟨fes, e, hfes, hmem⟩
    · rw [hfns]
      exact mem_collectIds_init _ _ _ (mem_collectIds_of_mem _ _ _ _ hmem)
    · rw [hfes]
      exact mem_collectIds_of_mem _ _ _ _ hmem

/-- Witness for C8's amended claim at the example manifest. -/
theorem spec_C8_amended_witness :
    ((∃ n, (n, "file_type_make") ∈ exampleManifest.fileNames) ∨
      (∃ e, (e, "file_type_make") ∈ exampleManifest.fileExtensions) →
      ∀ v, (convertManifest exampleManifest).themes.head? = some v →
        (objGet v.file_icons "file_type_make").isSome) ∧
    (∀ l, exampleManifest.light = some l →
      ((∃ fns n, l.fileNames = some fns ∧ (n, "file_type_make") ∈ fns) ∨
       (∃ fes e, l.fileExtensions = some fes ∧ (e, "file_type_make") ∈ fes)) →
      ∀ v, (convertManifest exampleManifest).themes.get? 1 = some v →
        (objGet v.file_icons "file_type_make").isSome) :=
  spec_C8_amended exampleManifest "file_type_make" { iconPath := "/x/make.svg" } rfl rfl

/-- `convertManifest` is unchanged by erasing the `languageIds` fields. -/
theorem convertManifest_scrub (m : VSCodeIconsManifest) :
    convertManifest (scrubLanguageIds m) = convertManifest m := by
  cases m with
  | mk defs f fe fn fne fext fnames lids light =>
    cases light with
    | none => rfl
    | some l =>
      cases l
      rfl

/-- C9: the `languageIds` mappings have no effect on the converted output:
manifests that differ only in their (top-level or light-block)
`languageIds` fields convert identically, and every key of any variant's
`file_icons` table comes from `iconDefinitions` (no language identifier is
folded in). -/
theorem spec_C9_languageIds_inert (m1 m2 : VSCodeIconsManifest)
    (h : scrubLanguageIds m1 = scrubLanguageIds m2) :
    convertManifest m1 = convertManifest m2 ∧
    (∀ v ∈ (convertManifest m1).themes, ∀ k,
      (objGet v.file_icons k).isSome → (objGet m1.iconDefinitions k).isSome) := by
  constructor
  · rw [← convertManifest_scrub m1, ← convertManifest_scrub m2, h]
  · intro v hv k hk
    rcases mem_themes m1 v hv with rfl | ⟨l, hl, rfl⟩
    · exact buildFileIcons_key_sub _ _ _ hk
    · exact buildFileIcons_key_sub _ _ _ hk

/-- Witness for C9: adding a `languageIds` mapping to the example manifest
does not change the output. -/
theorem spec_C9_witness :
    convertManifest exampleManifestWithLangIds = convertManifest exampleManifest ∧
    (∀ v ∈ (convertManifest exampleManifestWithLangIds).themes, ∀ k,
      (objGet v.file_icons k).isSome →
        (objGet exampleManifestWithLangIds.iconDefinitions k).isSome) :=
  spec_C9_languageIds_inert exampleManifestWithLangIds exampleManifest rfl

end ZedVSCodeIcons
